import Mathlib

/-!
Shallow embedding of `src/scrape.py`, a heuristic multi-language
function-boundary extractor.  Lines of a file are modelled as
`List String` (each line keeps its trailing newline, as produced by
`readlines`).  The lexical-analysis collaborator is abstracted as a
function `String → Option String` giving, for a line, the text of the
first function-name token on it (if any).  Python integer indices that
can be `-1` are modelled as `Int`, and Python slicing is reproduced by
`pySlice`.
-/

namespace Scrape

/-- `get_balance(line, braces)` from the source: sum over the characters of
`line` of `+1` for the opening character `braces[0]`, `-1` for the closing
character `braces[1]`, `0` otherwise. -/
def get_balance (line : String) (braces : String) : Int :=
  (line.data.map (fun x =>
    if x = braces.data.getD 0 ' ' then (1 : Int)
    else if x = braces.data.getD 1 ' ' then (-1 : Int)
    else 0)).sum

/-- Python slice `s[a:b]` semantics on a list: negative indices count from
the end, then both bounds are clamped to `[0, n]`. -/
def pySlice (s : List Char) (a b : Int) : List Char :=
  (s.take (if b < 0 then max ((s.length : Int) + b) 0
    else min b (s.length : Int)).toNat).drop
    (if a < 0 then max ((s.length : Int) + a) 0
      else min a (s.length : Int)).toNat

/-- The scanning loop of `extract_curly_oneliner`: walking the characters of
the line with their indices, it records in the first component the index
after the first `{` (once set, never changed) and in the second the index of
the last `}` seen so far; both start at `-1`. -/
def ocLoop : List Char → Nat → Int × Int → Int × Int
  | [], _, acc => acc
  | c :: cs, i, acc =>
      let sc := if c = '{' ∧ acc.1 = -1 then (i : Int) + 1 else acc.1
      let ec := if c = '}' then (i : Int) else acc.2
      ocLoop cs (i + 1) (sc, ec)

/-- The index of the first occurrence of the character `c` in a list, used to
state what `ocLoop` computes in its first component. -/
def firstIdxOf (c : Char) : List Char → Option Nat
  | [] => none
  | x :: xs => if x = c then some 0 else (firstIdxOf c xs).map (· + 1)

/-- The index of the last occurrence of the character `c` in a list, used to
state what `ocLoop` computes in its second component. -/
def lastIdxOf (c : Char) : List Char → Option Nat
  | [] => none
  | x :: xs =>
      match lastIdxOf c xs with
      | some k => some (k + 1)
      | none => if x = c then some 0 else none

/-- `extract_curly_oneliner(start, header, line)` from the source: returns the
unchanged cursor, the header as full text, and `line[start_clean:end_clean]`
as clean body, where `start_clean` is the index after the first `{` and
`end_clean` the index of the last `}` (each `-1` if absent). -/
def extract_curly_oneliner (start : Nat) (header line : String) :
    Nat × String × String :=
  let p := ocLoop line.data 0 (-1, -1)
  (start, header, ⟨pySlice line.data p.1 p.2⟩)

/-- The search loop of `extract_curly_function`: starting from a running
balance `bal`, add each line's net curly balance in turn and return the
relative index of the first line at which the running balance is `0`,
or `none` if that never happens. -/
def findClose (bal : Int) : List String → Option Nat
  | [] => none
  | l :: ls =>
      let b := bal + get_balance l "\x7b\x7d"
      if b = 0 then some 0 else (findClose b ls).map (· + 1)

/-- The running curly balance of the multi-line extraction, as the spec
describes it: the header's initial imbalance `bal` plus the net curly balance
of each of the lines `start+1, ..., k`. -/
def curlyRunBal (bal : Int) (lines : List String) (start k : Nat) : Int :=
  bal + (((lines.drop (start + 1)).take (k - start)).map
    (fun l => get_balance l "\x7b\x7d")).sum

/-- `extract_curly_function(start, initial_curly_balance, header, lines)` from
the source: scan lines `start+1, start+2, ...` accumulating the curly balance;
at the first line `j` where it reaches `0`, return
`(j, header + ''.join(lines[start+1:j+1]), ''.join(lines[start+1:j+1])` with
every `}` removed`)`; if the balance never reaches `0`, return
`(len(lines)-1, '', '')`. -/
def extract_curly_function (start : Nat) (initial_curly_balance : Int)
    (header : String) (lines : List String) : Nat × String × String :=
  match findClose initial_curly_balance (lines.drop (start + 1)) with
  | some k =>
      let seg := (lines.drop (start + 1)).take (k + 1)
      (start + 1 + k, header ++ String.join seg,
        ⟨(String.join seg).data.filter (fun c => c ≠ '}')⟩)
  | none => (lines.length - 1, "", "")

/-- `get_ident(line)` from the source: the first index whose character is not
a space, defaulting to `0` when every character is a space (in particular for
the empty line). -/
def get_ident (line : String) : Nat :=
  match line.data.findIdx? (fun c => c ≠ ' ') with
  | some i => i
  | none => 0

/-- The `while` loop of `extract_python_function`: the number of initial
lines (of the list of lines after the header) whose indentation is at least
`ident + 4`. -/
def pyCount (ident : Nat) : List String → Nat
  | [] => 0
  | l :: ls => if ident + 4 ≤ get_ident l then pyCount ident ls + 1 else 0

/-- `extract_python_function(start, header, line, lines)` from the source:
advance `j` from `start` while the next line's indentation is at least
`get_ident(line) + 4`; return `(j, header + ''.join(lines[start+1:j+1]),
''.join(lines[start+1:j+1]))`. -/
def extract_python_function (start : Nat) (header line : String)
    (lines : List String) : Nat × String × String :=
  let ident := get_ident line
  let j := start + pyCount ident (lines.drop (start + 1))
  let seg := (lines.drop (start + 1)).take (j - start)
  (j, header ++ String.join seg, String.join seg)

/-- `extract_clean_oneliner(start, header, line)` from the source: returns
`(start, line, line[line.find('=') + 1:])`, where `find` is `-1` when the
line has no `=`. -/
def extract_clean_oneliner (start : Nat) (header line : String) :
    Nat × String × String :=
  let f : Int :=
    match line.data.findIdx? (fun c => c = '=') with
    | some k => (k : Int)
    | none => -1
  (start, line, ⟨pySlice line.data (f + 1) (line.data.length : Int)⟩)

/-- Python's `str.strip()`: the line with leading and trailing whitespace
removed (whitespace modelled by `Char.isWhitespace`). -/
def strip (line : String) : String :=
  ⟨((line.data.dropWhile Char.isWhitespace).reverse.dropWhile
      Char.isWhitespace).reverse⟩

/-- Python's `str.endswith(t)` on the character list of a string. -/
def endswith (s t : String) : Bool :=
  t.data.isSuffixOf s.data

/-- Result of handling one function-name token in `process_filename`:
the (possibly advanced) cursor, the full text `body`, the `clean_body`,
and how much `missed` was incremented (0 or 1). -/
structure HandleResult where
  i : Nat
  body : String
  clean_body : String
  missedInc : Nat
deriving DecidableEq

/-- The dispatch in the body of `process_filename` (lines 146–169 of the
source) for a line carrying a function-name token: if the line contains `{`,
use the curly one-liner when its curly balance is `0` and the curly
multi-line extractor otherwise; else if the stripped line ends with `:`, use
the indentation-block extractor; else if the stripped line ends with neither
`;` nor `...` and the parenthesis balance is `0`, use the bare one-liner;
otherwise increment `missed` and leave cursor, body and clean body alone. -/
def handle (i : Nat) (line : String) (lines : List String) : HandleResult :=
  if '{' ∈ line.data then
    if get_balance line "\x7b\x7d" = 0 then
      ⟨(extract_curly_oneliner i line line).1,
        (extract_curly_oneliner i line line).2.1,
        (extract_curly_oneliner i line line).2.2, 0⟩
    else
      ⟨(extract_curly_function i (get_balance line "\x7b\x7d") line lines).1,
        (extract_curly_function i (get_balance line "\x7b\x7d") line lines).2.1,
        (extract_curly_function i (get_balance line "\x7b\x7d") line lines).2.2, 0⟩
  else if endswith (strip line) ":" then
    ⟨(extract_python_function i line line lines).1,
      (extract_python_function i line line lines).2.1,
      (extract_python_function i line line lines).2.2, 0⟩
  else if endswith (strip line) ";" = false ∧ endswith (strip line) "..." = false ∧
      get_balance line "()" = 0 then
    ⟨(extract_clean_oneliner i line line).1,
      (extract_clean_oneliner i line line).2.1,
      (extract_clean_oneliner i line line).2.2, 0⟩
  else
    ⟨i, "", "", 1⟩

/-- The `while i < len(lines)` loop of `process_filename`: at each line, if
the tokenizer reports a function-name token, handle it, append
`(name, body)` when the clean body does not strip to empty, add the missed
increment, and continue from the returned cursor plus one; otherwise just
move to the next line. -/
def scanLoop (tok : String → Option String) (lines : List String) (i : Nat)
    (methods : List (String × String)) (missed : Nat) :
    List (String × String) × Nat :=
  if h : i < lines.length then
    match tok (lines.get ⟨i, h⟩) with
    | none => scanLoop tok lines (i + 1) methods missed
    | some name =>
        scanLoop tok lines ((handle i (lines.get ⟨i, h⟩) lines).i + 1)
          (if strip (handle i (lines.get ⟨i, h⟩) lines).clean_body = "" then
            methods
           else methods ++ [(name, (handle i (lines.get ⟨i, h⟩) lines).body)])
          (missed + (handle i (lines.get ⟨i, h⟩) lines).missedInc)
  else (methods, missed)
termination_by lines.length - i
decreasing_by
  · omega
  · have hle : i ≤ (handle i (lines.get ⟨i, h⟩) lines).i := by
      unfold handle
      split_ifs with h1 h2 h3 h4
      · exact Nat.le_refl _
      · show i ≤ (extract_curly_function i
            (get_balance (lines.get ⟨i, h⟩) "\x7b\x7d") (lines.get ⟨i, h⟩) lines).1
        unfold extract_curly_function
        split
        · rename_i k hk
          show i ≤ i + 1 + k
          omega
        · show i ≤ lines.length - 1
          omega
      · exact Nat.le_add_right _ _
      · exact Nat.le_refl _
      · exact Nat.le_refl _
    omega

/-- The two failure modes swallowed by `process_filename`'s `try/except`. -/
inductive FileFailure
  | unicodeDecodeError
  | classNotFound

/-- `process_filename` from the source, over an already-resolved input: a
failure (the file cannot be decoded, or no lexer exists for the filename)
yields `([], 0)`; otherwise the per-line scan runs from cursor `0` with
empty accumulators. -/
def process_filename
    (input : Except FileFailure ((String → Option String) × List String)) :
    List (String × String) × Nat :=
  match input with
  | .error _ => ([], 0)
  | .ok (tok, lines) => scanLoop tok lines 0 [] 0

/-! ### Supporting lemmas -/

theorem pySlice_natCast (l : List Char) (a b : Nat) (ha : a ≤ l.length)
    (hb : b ≤ l.length) : pySlice l (a : Int) (b : Int) = (l.take b).drop a := by
  unfold pySlice
  have ea : (if (a : Int) < 0 then max ((l.length : Int) + a) 0
      else min (a : Int) (l.length : Int)).toNat = a := by
    split_ifs with h
    · omega
    · omega
  have eb : (if (b : Int) < 0 then max ((l.length : Int) + b) 0
      else min (b : Int) (l.length : Int)).toNat = b := by
    split_ifs with h
    · omega
    · omega
  rw [ea, eb]

theorem take_length_takeWhile {α : Type} (p : α → Bool) :
    ∀ l : List α, l.take (l.takeWhile p).length = l.takeWhile p
  | [] => rfl
  | x :: xs => by
      by_cases h : p x
      · simp [List.takeWhile_cons, h, take_length_takeWhile p xs]
      · simp [List.takeWhile_cons, h]

theorem pyCount_eq_takeWhile (ident : Nat) :
    ∀ ls : List String,
      pyCount ident ls =
        (ls.takeWhile (fun l => ident + 4 ≤ get_ident l)).length
  | [] => rfl
  | l :: ls => by
      by_cases h : ident + 4 ≤ get_ident l
      · simp [pyCount, List.takeWhile_cons, h, pyCount_eq_takeWhile ident ls]
      · simp [pyCount, List.takeWhile_cons, h]

theorem pyCount_le_length (ident : Nat) :
    ∀ ls : List String, pyCount ident ls ≤ ls.length
  | [] => Nat.le_refl 0
  | l :: ls => by
      by_cases h : ident + 4 ≤ get_ident l
      · simpa [pyCount, h] using pyCount_le_length ident ls
      · simp [pyCount, h]

theorem findClose_lt_length :
    ∀ (ls : List String) (bal : Int) (k : Nat),
      findClose bal ls = some k → k < ls.length
  | [], bal, k => by simp [findClose]
  | l :: ls, bal, k => by
      simp only [findClose]
      split_ifs with h0
      · intro h
        cases h
        simp
      · intro h
        cases hfc : findClose (bal + get_balance l "\x7b\x7d") ls with
        | none => rw [hfc] at h; simp at h
        | some k' =>
            rw [hfc] at h
            simp only [Option.map_some', Option.some.injEq] at h
            have := findClose_lt_length ls _ k' hfc
            simp only [List.length_cons]
            omega

theorem findClose_eq_some (ls : List String) :
    ∀ (bal : Int) (k : Nat), k < ls.length →
      bal + ((ls.take (k + 1)).map (fun l => get_balance l "\x7b\x7d")).sum = 0 →
      (∀ m, m < k →
        bal + ((ls.take (m + 1)).map (fun l => get_balance l "\x7b\x7d")).sum ≠ 0) →
      findClose bal ls = some k := by
  induction ls with
  | nil => intro bal k hk; simp at hk
  | cons l ls ih =>
      intro bal k hk hz hmin
      by_cases h0 : bal + get_balance l "\x7b\x7d" = 0
      · have hk0 : k = 0 := by
          by_contra hne
          exact absurd h0 (by simpa using hmin 0 (Nat.pos_of_ne_zero hne))
        subst hk0
        simp [findClose, h0]
      · have hk' : k ≠ 0 := by
          intro hk0
          subst hk0
          exact h0 (by simpa using hz)
        obtain ⟨k', rfl⟩ := Nat.exists_eq_succ_of_ne_zero hk'
        have hz' : (bal + get_balance l "\x7b\x7d") +
            ((ls.take (k' + 1)).map (fun l => get_balance l "\x7b\x7d")).sum = 0 := by
          simp only [List.take_succ_cons, List.map_cons, List.sum_cons] at hz
          omega
        have hmin' : ∀ m, m < k' → (bal + get_balance l "\x7b\x7d") +
            ((ls.take (m + 1)).map (fun l => get_balance l "\x7b\x7d")).sum ≠ 0 := by
          intro m hm
          have := hmin (m + 1) (by omega)
          simp only [List.take_succ_cons, List.map_cons, List.sum_cons] at this
          omega
        have := ih (bal + get_balance l "\x7b\x7d") k'
          (by simpa using Nat.lt_of_succ_lt_succ (by simpa using hk)) hz' hmin'
        simp [findClose, h0, this]

theorem findClose_eq_none (ls : List String) :
    ∀ bal : Int,
      (∀ k, k < ls.length →
        bal + ((ls.take (k + 1)).map (fun l => get_balance l "\x7b\x7d")).sum ≠ 0) →
      findClose bal ls = none := by
  induction ls with
  | nil => intro bal _; simp [findClose]
  | cons l ls ih =>
      intro bal h
      have h0 : bal + get_balance l "\x7b\x7d" ≠ 0 := by simpa using h 0 (by simp)
      have hrest : findClose (bal + get_balance l "\x7b\x7d") ls = none := by
        apply ih
        intro k hk
        have := h (k + 1) (by simpa)
        simp only [List.take_succ_cons, List.map_cons, List.sum_cons] at this
        omega
      simp [findClose, h0, hrest]

theorem balance_sum_eq (l : List Char) :
    (l.map (fun x => if x = '{' then (1 : Int) else if x = '}' then -1 else 0)).sum
      = (l.count '{' : Int) - (l.count '}' : Int) := by
  induction l with
  | nil => simp
  | cons c cs ih =>
      simp only [List.map_cons, List.sum_cons, List.count_cons, ih]
      by_cases h1 : c = '{'
      · subst h1
        simp
        all_goals omega
      · by_cases h2 : c = '}'
        · subst h2
          simp
          all_goals omega
        · simp [h1, h2]
          all_goals omega

theorem get_balance_curly (line : String) :
    get_balance line "\x7b\x7d" =
      (line.data.count '{' : Int) - (line.data.count '}' : Int) := by
  have e1 : ("\x7b\x7d" : String).data.getD 0 ' ' = '{' := rfl
  have e2 : ("\x7b\x7d" : String).data.getD 1 ' ' = '}' := rfl
  unfold get_balance
  simp only [e1, e2]
  exact balance_sum_eq _

theorem lastIdxOf_isSome_of_mem (c : Char) :
    ∀ l : List Char, c ∈ l → ∃ k, lastIdxOf c l = some k
  | x :: xs, h => by
      simp only [lastIdxOf]
      cases hl : lastIdxOf c xs with
      | some k => exact ⟨k + 1, rfl⟩
      | none =>
          rcases List.mem_cons.mp h with h1 | h2
          · exact ⟨0, by rw [if_pos h1.symm]⟩
          · obtain ⟨k, hk⟩ := lastIdxOf_isSome_of_mem c xs h2
            rw [hk] at hl
            cases hl

theorem lastIdxOf_lt_length (c : Char) :
    ∀ (l : List Char) (k : Nat), lastIdxOf c l = some k → k < l.length
  | [], k, h => by simp [lastIdxOf] at h
  | x :: xs, k, h => by
      simp only [lastIdxOf] at h
      cases hl : lastIdxOf c xs with
      | some k' =>
          rw [hl] at h
          cases h
          have := lastIdxOf_lt_length c xs k' hl
          simp only [List.length_cons]
          omega
      | none =>
          rw [hl] at h
          by_cases hx : x = c
          · rw [if_pos hx] at h
            cases h
            simp
          · rw [if_neg hx] at h
            cases h

theorem firstIdxOf_isSome_of_mem (c : Char) :
    ∀ l : List Char, c ∈ l → ∃ k, firstIdxOf c l = some k
  | x :: xs, h => by
      simp only [firstIdxOf]
      by_cases hx : x = c
      · exact ⟨0, by rw [if_pos hx]⟩
      · rw [if_neg hx]
        rcases List.mem_cons.mp h with h1 | h2
        · exact absurd h1.symm hx
        · obtain ⟨k, hk⟩ := firstIdxOf_isSome_of_mem c xs h2
          exact ⟨k + 1, by rw [hk]; rfl⟩

theorem firstIdxOf_lt_length (c : Char) :
    ∀ (l : List Char) (k : Nat), firstIdxOf c l = some k → k < l.length
  | [], k, h => by simp [firstIdxOf] at h
  | x :: xs, k, h => by
      simp only [firstIdxOf] at h
      by_cases hx : x = c
      · rw [if_pos hx] at h
        cases h
        simp
      · rw [if_neg hx] at h
        cases hf : firstIdxOf c xs with
        | none => rw [hf] at h; cases h
        | some k' =>
            rw [hf] at h
            simp only [Option.map_some', Option.some.injEq] at h
            have := firstIdxOf_lt_length c xs k' hf
            simp only [List.length_cons]
            omega

theorem findIdx?_some_lt {p : Char → Bool} {l : List Char} {k : Nat}
    (h : l.findIdx? p = some k) : k < l.length := by
  obtain ⟨hlt, -⟩ := List.findIdx?_eq_some_iff_getElem.mp h
  exact hlt

theorem ocLoop_fst (cs : List Char) :
    ∀ (i : Nat) (sc ec : Int),
      (ocLoop cs i (sc, ec)).1 =
        if sc = -1 then
          match firstIdxOf '{' cs with
          | some k => ((i + k : Nat) : Int) + 1
          | none => -1
        else sc := by
  induction cs with
  | nil =>
      intro i sc ec
      show sc = if sc = -1 then -1 else sc
      split_ifs with h
      · exact h
      · rfl
  | cons c cs ih =>
      intro i sc ec
      show (ocLoop cs (i + 1)
          (if c = '{' ∧ sc = -1 then (i : Int) + 1 else sc,
           if c = '}' then (i : Int) else ec)).1 = _
      rw [ih]
      by_cases hc : c = '{' <;> by_cases hsc : sc = -1
      · subst hc
        subst hsc
        have hne : ¬((i : Int) + 1 = -1) := by omega
        simp [firstIdxOf, hne]
      · subst hc
        have h1 : ¬('{' = '{' ∧ sc = -1) := fun hand => hsc hand.2
        simp [h1, hsc]
      · subst hsc
        have h1 : ¬(c = '{' ∧ (-1 : Int) = -1) := fun hand => hc hand.1
        cases hfi : firstIdxOf '{' cs with
        | none => simp [h1, firstIdxOf, hc, hfi]
        | some k =>
            simp [h1, firstIdxOf, hc, hfi]
            push_cast
            ring
      · have h1 : ¬(c = '{' ∧ sc = -1) := fun hand => hc hand.1
        simp [h1, hsc]

theorem ocLoop_snd (cs : List Char) :
    ∀ (i : Nat) (sc ec : Int),
      (ocLoop cs i (sc, ec)).2 =
        match lastIdxOf '}' cs with
        | some k => ((i + k : Nat) : Int)
        | none => ec := by
  induction cs with
  | nil => intro i sc ec; rfl
  | cons c cs ih =>
      intro i sc ec
      show (ocLoop cs (i + 1)
          (if c = '{' ∧ sc = -1 then (i : Int) + 1 else sc,
           if c = '}' then (i : Int) else ec)).2 = _
      rw [ih]
      simp only [lastIdxOf]
      cases hl : lastIdxOf '}' cs with
      | some k =>
          show ((i + 1 + k : Nat) : Int) = _
          push_cast
          ring
      | none =>
          by_cases hc2 : c = '}'
          · simp [hc2]
          · simp [hc2]

theorem scanLoop_base (tok : String → Option String) (lines : List String)
    (i : Nat) (ms : List (String × String)) (md : Nat)
    (h : ¬ i < lines.length) : scanLoop tok lines i ms md = (ms, md) := by
  unfold scanLoop
  rw [dif_neg h]

theorem scanLoop_none (tok : String → Option String) (lines : List String)
    (i : Nat) (ms : List (String × String)) (md : Nat)
    (h : i < lines.length) (htok : tok (lines.get ⟨i, h⟩) = none) :
    scanLoop tok lines i ms md = scanLoop tok lines (i + 1) ms md := by
  conv_lhs => rw [scanLoop]
  rw [dif_pos h, htok]

theorem scanLoop_some (tok : String → Option String) (lines : List String)
    (i : Nat) (ms : List (String × String)) (md : Nat)
    (h : i < lines.length) (name : String)
    (htok : tok (lines.get ⟨i, h⟩) = some name) :
    scanLoop tok lines i ms md =
      scanLoop tok lines ((handle i (lines.get ⟨i, h⟩) lines).i + 1)
        (if strip (handle i (lines.get ⟨i, h⟩) lines).clean_body = "" then ms
         else ms ++ [(name, (handle i (lines.get ⟨i, h⟩) lines).body)])
        (md + (handle i (lines.get ⟨i, h⟩) lines).missedInc) := by
  conv_lhs => rw [scanLoop]
  rw [dif_pos h, htok]

theorem extract_curly_function_fst_bounds (start : Nat) (bal : Int)
    (header : String) (lines : List String) (h : start < lines.length) :
    start ≤ (extract_curly_function start bal header lines).1 ∧
      (extract_curly_function start bal header lines).1 ≤ lines.length - 1 := by
  unfold extract_curly_function
  cases hfc : findClose bal (lines.drop (start + 1)) with
  | some k =>
      have hk := findClose_lt_length _ _ _ hfc
      rw [List.length_drop] at hk
      constructor
      · show start ≤ start + 1 + k
        omega
      · show start + 1 + k ≤ lines.length - 1
        omega
  | none =>
      constructor
      · show start ≤ lines.length - 1
        omega
      · show lines.length - 1 ≤ lines.length - 1
        exact Nat.le_refl _

theorem extract_python_function_fst_bounds (start : Nat) (header line : String)
    (lines : List String) (h : start < lines.length) :
    start ≤ (extract_python_function start header line lines).1 ∧
      (extract_python_function start header line lines).1 ≤
        lines.length - 1 := by
  constructor
  · exact Nat.le_add_right _ _
  · have hc := pyCount_le_length (get_ident line) (lines.drop (start + 1))
    rw [List.length_drop] at hc
    show start + pyCount (get_ident line) (lines.drop (start + 1)) ≤
      lines.length - 1
    omega

theorem handle_i_bounds (i : Nat) (line : String) (lines : List String)
    (h : i < lines.length) :
    i ≤ (handle i line lines).i ∧ (handle i line lines).i ≤ lines.length - 1 := by
  unfold handle
  split_ifs with h1 h2 h3 h4
  · refine ⟨Nat.le_refl _, ?_⟩
    show i ≤ lines.length - 1
    omega
  · exact extract_curly_function_fst_bounds i (get_balance line "\x7b\x7d") line
      lines h
  · exact extract_python_function_fst_bounds i line line lines h
  · refine ⟨Nat.le_refl _, ?_⟩
    show i ≤ lines.length - 1
    omega
  · refine ⟨Nat.le_refl _, ?_⟩
    show i ≤ lines.length - 1
    omega

theorem handle_curly_one (i : Nat) (line : String) (lines : List String)
    (hb : '{' ∈ line.data) (h0 : get_balance line "\x7b\x7d" = 0) :
    handle i line lines =
      ⟨(extract_curly_oneliner i line line).1,
        (extract_curly_oneliner i line line).2.1,
        (extract_curly_oneliner i line line).2.2, 0⟩ := by
  unfold handle
  rw [if_pos hb, if_pos h0]

theorem handle_curly_multi (i : Nat) (line : String) (lines : List String)
    (hb : '{' ∈ line.data) (h0 : get_balance line "\x7b\x7d" ≠ 0) :
    handle i line lines =
      ⟨(extract_curly_function i (get_balance line "\x7b\x7d") line lines).1,
        (extract_curly_function i (get_balance line "\x7b\x7d") line lines).2.1,
        (extract_curly_function i (get_balance line "\x7b\x7d") line lines).2.2,
        0⟩ := by
  unfold handle
  rw [if_pos hb, if_neg h0]

theorem handle_python (i : Nat) (line : String) (lines : List String)
    (hb : '{' ∉ line.data) (hcolon : endswith (strip line) ":" = true) :
    handle i line lines =
      ⟨(extract_python_function i line line lines).1,
        (extract_python_function i line line lines).2.1,
        (extract_python_function i line line lines).2.2, 0⟩ := by
  unfold handle
  rw [if_neg hb, if_pos hcolon]

theorem handle_bare (i : Nat) (line : String) (lines : List String)
    (hb : '{' ∉ line.data) (hcolon : endswith (strip line) ":" = false)
    (hsemi : endswith (strip line) ";" = false)
    (hdots : endswith (strip line) "..." = false)
    (hpar : get_balance line "()" = 0) :
    handle i line lines =
      ⟨(extract_clean_oneliner i line line).1,
        (extract_clean_oneliner i line line).2.1,
        (extract_clean_oneliner i line line).2.2, 0⟩ := by
  unfold handle
  rw [if_neg hb, if_neg (by simp [hcolon]), if_pos ⟨hsemi, hdots, hpar⟩]

theorem handle_miss (i : Nat) (line : String) (lines : List String)
    (hb : '{' ∉ line.data) (hcolon : endswith (strip line) ":" = false)
    (hrest : ¬(endswith (strip line) ";" = false ∧
      endswith (strip line) "..." = false ∧ get_balance line "()" = 0)) :
    handle i line lines = ⟨i, "", "", 1⟩ := by
  unfold handle
  rw [if_neg hb, if_neg (by simp [hcolon]), if_neg hrest]

theorem extract_clean_oneliner_spec (start : Nat) (header line : String) :
    (extract_clean_oneliner start header line).1 = start ∧
    (extract_clean_oneliner start header line).2.1 = line ∧
    (∀ k, line.data.findIdx? (fun c => c = '=') = some k →
      (extract_clean_oneliner start header line).2.2 =
        ⟨line.data.drop (k + 1)⟩) ∧
    (line.data.findIdx? (fun c => c = '=') = none →
      (extract_clean_oneliner start header line).2.2 = line) := by
  refine ⟨rfl, rfl, ?_, ?_⟩
  · intro k hk
    have hklt := findIdx?_some_lt hk
    show (⟨pySlice line.data
        ((match line.data.findIdx? (fun c => c = '=') with
          | some k => (k : Int)
          | none => -1) + 1) (line.data.length : Int)⟩ : String) = _
    rw [hk]
    have e1 : ((k : Int) + 1) = ((k + 1 : Nat) : Int) := by push_cast; ring
    show (⟨pySlice line.data ((k : Int) + 1) (line.data.length : Int)⟩ :
      String) = _
    rw [e1, pySlice_natCast line.data (k + 1) line.data.length (by omega)
      (Nat.le_refl _), List.take_length]
  · intro hk
    show (⟨pySlice line.data
        ((match line.data.findIdx? (fun c => c = '=') with
          | some k => (k : Int)
          | none => -1) + 1) (line.data.length : Int)⟩ : String) = _
    rw [hk]
    have e1 : ((-1 : Int) + 1) = ((0 : Nat) : Int) := by norm_num
    show (⟨pySlice line.data ((-1 : Int) + 1) (line.data.length : Int)⟩ :
      String) = _
    rw [e1, pySlice_natCast line.data 0 line.data.length (by omega)
      (Nat.le_refl _), List.take_length, List.drop_zero]

/-! ### The claims -/

/-- Claim C8: a decode failure or a missing lexer ruleset makes
`process_filename` return exactly the empty record list and a miss count of
zero, and the failure is not propagated to the caller. -/
theorem failure_yields_empty (e : FileFailure) :
    process_filename (Except.error e) = ([], 0) := rfl

/-- Claim C10: the per-file scan terminates because each iteration makes
strict progress: at any valid cursor `i`, the handler returns a cursor at
least `i`, so the next scanned index `(handle ...).i + 1` strictly exceeds
`i` while never exceeding `lines.length`; hence `i` strictly increases each
iteration and reaches `lines.length`.  (Termination itself is definitional:
`scanLoop` is total, by well-founded recursion on `lines.length - i`.) -/
theorem scan_strict_progress (i : Nat) (line : String) (lines : List String)
    (h : i < lines.length) :
    i ≤ (handle i line lines).i ∧
      i < (handle i line lines).i + 1 ∧
      (handle i line lines).i + 1 ≤ lines.length := by
  obtain ⟨h1, h2⟩ := handle_i_bounds i line lines h
  exact ⟨h1, by omega, by omega⟩

/-- Witness for C10 at a concrete input. -/
theorem scan_strict_progress_witness :
    (0 : Nat) < (["x\n"] : List String).length ∧
      (0 ≤ (handle 0 "x\n" ["x\n"]).i ∧
        0 < (handle 0 "x\n" ["x\n"]).i + 1 ∧
        (handle 0 "x\n" ["x\n"]).i + 1 ≤ (["x\n"] : List String).length) :=
  ⟨by decide, scan_strict_progress 0 "x\n" ["x\n"] (by decide)⟩

/-- Claim C9: on a non-empty line list and a starting cursor
`0 ≤ start ≤ len - 1`, every extractor returns a cursor `c` with
`start ≤ c ≤ len - 1`: no extractor rewinds the cursor or moves it past the
last line index. -/
theorem extractor_cursor_bounds (start : Nat) (bal : Int)
    (header line : String) (lines : List String)
    (hne : lines ≠ []) (hs : start ≤ lines.length - 1) :
    (start ≤ (extract_curly_oneliner start header line).1 ∧
      (extract_curly_oneliner start header line).1 ≤ lines.length - 1) ∧
    (start ≤ (extract_curly_function start bal header lines).1 ∧
      (extract_curly_function start bal header lines).1 ≤ lines.length - 1) ∧
    (start ≤ (extract_python_function start header line lines).1 ∧
      (extract_python_function start header line lines).1 ≤
        lines.length - 1) ∧
    (start ≤ (extract_clean_oneliner start header line).1 ∧
      (extract_clean_oneliner start header line).1 ≤ lines.length - 1) := by
  have hlen : 0 < lines.length := List.length_pos.mpr hne
  have h : start < lines.length := by omega
  exact ⟨⟨Nat.le_refl _, hs⟩,
    extract_curly_function_fst_bounds start bal header lines h,
    extract_python_function_fst_bounds start header line lines h,
    ⟨Nat.le_refl _, hs⟩⟩

/-- Witness for C9 at a concrete input. -/
theorem extractor_cursor_bounds_witness :
    ((["x\n", "y\n"] : List String) ≠ [] ∧
      1 ≤ (["x\n", "y\n"] : List String).length - 1) ∧
    ((1 ≤ (extract_curly_oneliner 1 "a\x7b(\n" "a\x7b(\n").1 ∧
      (extract_curly_oneliner 1 "a\x7b(\n" "a\x7b(\n").1 ≤
        (["x\n", "y\n"] : List String).length - 1) ∧
    (1 ≤ (extract_curly_function 1 2 "a\x7b(\n" ["x\n", "y\n"]).1 ∧
      (extract_curly_function 1 2 "a\x7b(\n" ["x\n", "y\n"]).1 ≤
        (["x\n", "y\n"] : List String).length - 1) ∧
    (1 ≤ (extract_python_function 1 "a\x7b(\n" "a\x7b(\n" ["x\n", "y\n"]).1 ∧
      (extract_python_function 1 "a\x7b(\n" "a\x7b(\n" ["x\n", "y\n"]).1 ≤
        (["x\n", "y\n"] : List String).length - 1) ∧
    (1 ≤ (extract_clean_oneliner 1 "a\x7b(\n" "a\x7b(\n").1 ∧
      (extract_clean_oneliner 1 "a\x7b(\n" "a\x7b(\n").1 ≤
        (["x\n", "y\n"] : List String).length - 1)) :=
  ⟨⟨by decide, by decide⟩,
    extractor_cursor_bounds 1 2 "a\x7b(\n" "a\x7b(\n" ["x\n", "y\n"] (by decide)
      (by decide)⟩

/-- Claim C2: for a line carrying a function-name token the locator selects
exactly one extractor, testing in order: (a) `{` present → curly one-liner
when the line's curly balance is 0, curly multi-line otherwise; (b) else
stripped line ends with `:` → indentation block; (c) else stripped line ends
with neither `;` nor `...` and parentheses balance → bare one-liner;
(d) else `missed` is incremented — exactly in that case — and no record can
be produced (cursor, body and clean body are left at `i`, `""`, `""`). -/
theorem locator_dispatch (i : Nat) (line : String) (lines : List String) :
    ('{' ∈ line.data → get_balance line "\x7b\x7d" = 0 →
      handle i line lines =
        ⟨(extract_curly_oneliner i line line).1,
          (extract_curly_oneliner i line line).2.1,
          (extract_curly_oneliner i line line).2.2, 0⟩) ∧
    ('{' ∈ line.data → get_balance line "\x7b\x7d" ≠ 0 →
      handle i line lines =
        ⟨(extract_curly_function i (get_balance line "\x7b\x7d") line lines).1,
          (extract_curly_function i (get_balance line "\x7b\x7d") line lines).2.1,
          (extract_curly_function i (get_balance line "\x7b\x7d") line lines).2.2,
          0⟩) ∧
    ('{' ∉ line.data → endswith (strip line) ":" = true →
      handle i line lines =
        ⟨(extract_python_function i line line lines).1,
          (extract_python_function i line line lines).2.1,
          (extract_python_function i line line lines).2.2, 0⟩) ∧
    ('{' ∉ line.data → endswith (strip line) ":" = false →
      endswith (strip line) ";" = false → endswith (strip line) "..." = false →
      get_balance line "()" = 0 →
      handle i line lines =
        ⟨(extract_clean_oneliner i line line).1,
          (extract_clean_oneliner i line line).2.1,
          (extract_clean_oneliner i line line).2.2, 0⟩) ∧
    ((handle i line lines).missedInc = 1 ↔
      '{' ∉ line.data ∧ endswith (strip line) ":" = false ∧
        (endswith (strip line) ";" = true ∨
          endswith (strip line) "..." = true ∨
          get_balance line "()" ≠ 0)) ∧
    ((handle i line lines).missedInc = 1 →
      handle i line lines = ⟨i, "", "", 1⟩) := by
  have hiff : (handle i line lines).missedInc = 1 ↔
      '{' ∉ line.data ∧ endswith (strip line) ":" = false ∧
        (endswith (strip line) ";" = true ∨
          endswith (strip line) "..." = true ∨
          get_balance line "()" ≠ 0) := by
    by_cases hb : '{' ∈ line.data
    · by_cases h0 : get_balance line "\x7b\x7d" = 0
      · rw [handle_curly_one i line lines hb h0]
        simp [hb]
      · rw [handle_curly_multi i line lines hb h0]
        simp [hb]
    · cases hcolon : endswith (strip line) ":" with
      | true =>
          rw [handle_python i line lines hb hcolon]
          simp [hcolon]
      | false =>
          by_cases hrest : endswith (strip line) ";" = false ∧
              endswith (strip line) "..." = false ∧ get_balance line "()" = 0
          · rw [handle_bare i line lines hb hcolon hrest.1 hrest.2.1 hrest.2.2]
            simp [hrest.1, hrest.2.1, hrest.2.2]
          · rw [handle_miss i line lines hb hcolon hrest]
            simp only [hb, hcolon, not_false_iff, true_and]
            constructor
            · intro _
              by_cases h1 : endswith (strip line) ";" = true
              · exact Or.inl h1
              · by_cases h2 : endswith (strip line) "..." = true
                · exact Or.inr (Or.inl h2)
                · refine Or.inr (Or.inr ?_)
                  intro h3
                  exact hrest ⟨by simpa using h1, by simpa using h2, h3⟩
            · intro _
              trivial
  have hmiss : (handle i line lines).missedInc = 1 →
      handle i line lines = ⟨i, "", "", 1⟩ := by
    intro hm
    obtain ⟨hb, hcolon, hor⟩ := hiff.mp hm
    apply handle_miss i line lines hb hcolon
    intro ⟨h1, h2, h3⟩
    rcases hor with h | h | h
    · rw [h1] at h
      cases h
    · rw [h2] at h
      cases h
    · exact h h3
  exact ⟨handle_curly_one i line lines, handle_curly_multi i line lines,
    handle_python i line lines, handle_bare i line lines, hiff, hmiss⟩

/-- Witness for C2 at a concrete input: a declaration line ending in `;`
matches no extractor and counts as a miss. -/
theorem locator_dispatch_witness : (handle 0 "f();\n" []).missedInc = 1 :=
  ((locator_dispatch 0 "f();\n" []).2.2.2.2.1).mpr (by decide)

/-- Claim C7: after a function-name token is handled at line `i`, the
`(name, fullText)` record is appended to the accumulator exactly when the
extractor's clean body is non-empty after stripping leading and trailing
whitespace; a clean body that strips to the empty string yields no record. -/
theorem record_iff_clean_nonempty (tok : String → Option String)
    (lines : List String) (i : Nat) (ms : List (String × String)) (md : Nat)
    (h : i < lines.length) (name : String)
    (htok : tok (lines.get ⟨i, h⟩) = some name) :
    scanLoop tok lines i ms md =
      scanLoop tok lines ((handle i (lines.get ⟨i, h⟩) lines).i + 1)
        (if strip (handle i (lines.get ⟨i, h⟩) lines).clean_body = "" then ms
         else ms ++ [(name, (handle i (lines.get ⟨i, h⟩) lines).body)])
        (md + (handle i (lines.get ⟨i, h⟩) lines).missedInc) :=
  scanLoop_some tok lines i ms md h name htok

/-- Witness for C7 at a concrete input: a bare one-liner whose clean body
strips to `"1"` (non-empty), so the record is appended. -/
theorem record_iff_clean_nonempty_witness :
    scanLoop (fun _ => some "x") ["val x = 1\n"] 0 [] 0 =
      scanLoop (fun _ => some "x") ["val x = 1\n"] 1
        [("x", "val x = 1\n")] 0 := by
  have h := record_iff_clean_nonempty (fun _ => some "x") ["val x = 1\n"]
    0 [] 0 (by decide) "x" rfl
  exact h

/-- Claim C6: the bare one-liner extractor keeps the cursor, returns the
header line unchanged as full text, and takes as clean body the substring of
the line strictly after the first `=`; with no `=` on the line the clean
body is the entire line. -/
theorem bare_oneliner_clean_body (start : Nat) (header line : String)
    (hh : header = line)
    (hb : '{' ∉ line.data)
    (hcolon : endswith (strip line) ":" = false)
    (hsemi : endswith (strip line) ";" = false)
    (hdots : endswith (strip line) "..." = false)
    (hpar : get_balance line "()" = 0) :
    (extract_clean_oneliner start header line).1 = start ∧
    (extract_clean_oneliner start header line).2.1 = header ∧
    (∀ k, line.data.findIdx? (fun c => c = '=') = some k →
      (extract_clean_oneliner start header line).2.2 =
        ⟨line.data.drop (k + 1)⟩) ∧
    (line.data.findIdx? (fun c => c = '=') = none →
      (extract_clean_oneliner start header line).2.2 = line) := by
  obtain ⟨h1, h2, h3, h4⟩ := extract_clean_oneliner_spec start header line
  exact ⟨h1, by rw [hh]; exact h2, h3, h4⟩

/-- Witness for C6 at the spec's concrete example. -/
theorem bare_oneliner_clean_body_witness :
    (extract_clean_oneliner 0 "val x = compute()" "val x = compute()").2.2 =
      " compute()" := by
  obtain ⟨-, -, h3, -⟩ := bare_oneliner_clean_body 0 "val x = compute()"
    "val x = compute()" rfl (by decide) (by decide) (by decide) (by decide)
    (by decide)
  rw [h3 6 (by decide)]
  decide

/-- Claim C4: the indentation-block extractor consumes exactly the maximal
contiguous run of lines after the header whose indentation is at least the
header's indentation plus 4, leaves the cursor at the last consumed line (at
the header when none qualifies), and returns full text = header plus the
consumed lines and clean body = the consumed lines alone; a blank line
(whether empty or a bare newline) has computed indentation 0 and hence
terminates the block. -/
theorem python_block_extraction (start : Nat) (header line : String)
    (lines : List String)
    (hcolon : endswith (strip line) ":" = true)
    (hb : '{' ∉ line.data) :
    extract_python_function start header line lines =
      (start +
        ((lines.drop (start + 1)).takeWhile
          (fun l => get_ident line + 4 ≤ get_ident l)).length,
       header ++ String.join ((lines.drop (start + 1)).takeWhile
          (fun l => get_ident line + 4 ≤ get_ident l)),
       String.join ((lines.drop (start + 1)).takeWhile
          (fun l => get_ident line + 4 ≤ get_ident l))) ∧
    get_ident "" = 0 ∧ get_ident "\n" = 0 := by
  refine ⟨?_, by decide, by decide⟩
  have hc : start + pyCount (get_ident line) (lines.drop (start + 1)) - start
      = pyCount (get_ident line) (lines.drop (start + 1)) := by omega
  show (start + pyCount (get_ident line) (lines.drop (start + 1)),
      header ++ String.join ((lines.drop (start + 1)).take
        (start + pyCount (get_ident line) (lines.drop (start + 1)) - start)),
      String.join ((lines.drop (start + 1)).take
        (start + pyCount (get_ident line) (lines.drop (start + 1)) -
          start))) = _
  rw [hc, pyCount_eq_takeWhile, take_length_takeWhile]

/-- Witness for C4 at a concrete input: one indented line is consumed, the
following dedented line is not. -/
theorem python_block_extraction_witness :
    extract_python_function 0 "def f():\n" "def f():\n"
        ["def f():\n", "    a\n", "c\n"] =
      (1, "def f():\n    a\n", "    a\n") := by
  have h := python_block_extraction 0 "def f():\n" "def f():\n"
    ["def f():\n", "    a\n", "c\n"] (by decide) (by decide)
  rw [h.1]
  decide

/-- Claim C5: the curly one-liner extractor (header containing `{` with net
curly balance 0) keeps the cursor, returns the header line itself as full
text, and takes as clean body the substring of the line strictly between the
index after the first `{` and the index of the last `}`. -/
theorem curly_oneliner_between (start : Nat) (header line : String)
    (hb : '{' ∈ line.data) (h0 : get_balance line "\x7b\x7d" = 0) :
    ∃ s e, firstIdxOf '{' line.data = some s ∧
      lastIdxOf '}' line.data = some e ∧
      extract_curly_oneliner start header line =
        (start, header, ⟨(line.data.take e).drop (s + 1)⟩) := by
  obtain ⟨s, hs⟩ := firstIdxOf_isSome_of_mem '{' line.data hb
  have hmem : '}' ∈ line.data := by
    have hcount := get_balance_curly line
    rw [h0] at hcount
    have h1 : 0 < line.data.count '{' := List.count_pos_iff.mpr hb
    have h2 : 0 < line.data.count '}' := by omega
    exact List.count_pos_iff.mp h2
  obtain ⟨e, he⟩ := lastIdxOf_isSome_of_mem '}' line.data hmem
  refine ⟨s, e, hs, he, ?_⟩
  have hslt := firstIdxOf_lt_length '{' line.data s hs
  have helt := lastIdxOf_lt_length '}' line.data e he
  have hf : (ocLoop line.data 0 (-1, -1)).1 = ((s : Int) + 1) := by
    rw [ocLoop_fst, if_pos rfl, hs]
    norm_num
  have hg : (ocLoop line.data 0 (-1, -1)).2 = (e : Int) := by
    rw [ocLoop_snd, he]
    norm_num
  show (start, header, (⟨pySlice line.data (ocLoop line.data 0 (-1, -1)).1
      (ocLoop line.data 0 (-1, -1)).2⟩ : String)) = _
  rw [hf, hg]
  have e1 : ((s : Int) + 1) = ((s + 1 : Nat) : Int) := by push_cast; ring
  rw [e1, pySlice_natCast line.data (s + 1) e (by omega) (by omega)]

/-- Witness for C5 at the spec's concrete example. -/
theorem curly_oneliner_between_witness :
    extract_curly_oneliner 0 "int f() \x7b return 1; \x7d" "int f() \x7b return 1; \x7d" =
      (0, "int f() \x7b return 1; \x7d", " return 1; ") := by
  obtain ⟨s, e, hs, he, hr⟩ := curly_oneliner_between 0
    "int f() \x7b return 1; \x7d" "int f() \x7b return 1; \x7d" (by decide) (by decide)
  have h8 : firstIdxOf '{' ("int f() \x7b return 1; \x7d" : String).data =
      some 8 := by decide
  have h20 : lastIdxOf '}' ("int f() \x7b return 1; \x7d" : String).data =
      some 20 := by decide
  rw [h8] at hs
  rw [h20] at he
  cases hs
  cases he
  rw [hr]
  decide

/-- Claim C1: when the running curly balance (the header's initial imbalance
plus each following line's net balance) first reaches 0 at line `j`, the
curly multi-line extractor returns cursor `j`, full text = header plus lines
`start+1 ... j` inclusive, and clean body = the same lines with every `}`
removed (and every `{` kept). -/
theorem curly_multiline_first_zero (start j : Nat) (header : String)
    (lines : List String)
    (hb : '{' ∈ header.data)
    (hnz : get_balance header "\x7b\x7d" ≠ 0)
    (hsj : start < j) (hjl : j < lines.length)
    (hz : curlyRunBal (get_balance header "\x7b\x7d") lines start j = 0)
    (hmin : ∀ k, start < k → k < j →
      curlyRunBal (get_balance header "\x7b\x7d") lines start k ≠ 0) :
    extract_curly_function start (get_balance header "\x7b\x7d") header lines =
      (j, header ++ String.join ((lines.drop (start + 1)).take (j - start)),
        ⟨(String.join ((lines.drop (start + 1)).take (j - start))).data.filter
          (fun c => c ≠ '}')⟩) := by
  have hfc : findClose (get_balance header "\x7b\x7d") (lines.drop (start + 1)) =
      some (j - (start + 1)) := by
    apply findClose_eq_some
    · rw [List.length_drop]
      omega
    · have e : j - (start + 1) + 1 = j - start := by omega
      rw [e]
      exact hz
    · intro m hm
      have hm2 := hmin (start + 1 + m) (by omega) (by omega)
      have e : (start + 1 + m) - start = m + 1 := by omega
      unfold curlyRunBal at hm2
      rw [e] at hm2
      exact hm2
  unfold extract_curly_function
  rw [hfc]
  dsimp only
  have e1 : start + 1 + (j - (start + 1)) = j := by omega
  have e2 : j - (start + 1) + 1 = j - start := by omega
  rw [e1, e2]

/-- Witness for C1 at a concrete input: the closing line is found two lines
after the header. -/
theorem curly_multiline_first_zero_witness :
    extract_curly_function 0 (get_balance "void f() \x7b\n" "\x7b\x7d")
        "void f() \x7b\n" ["void f() \x7b\n", "  x=1;\n", "\x7d\n", "a\n"] =
      (2, "void f() \x7b\n  x=1;\n\x7d\n", "  x=1;\n\n") := by
  have h := curly_multiline_first_zero 0 2 "void f() \x7b\n"
    ["void f() \x7b\n", "  x=1;\n", "\x7d\n", "a\n"] (by decide) (by decide)
    (by decide) (by decide) (by decide)
    (by
      intro k h1 h2
      have hk : k = 1 := by omega
      subst hk
      decide)
  rw [h]
  decide

/-- Claim C3: when the running curly balance never returns to 0 before the
end of the file, the curly multi-line extractor returns cursor
`len(lines) - 1` with empty full text and clean body; the scan then ends
with the accumulators unchanged — no miss is counted and the empty clean
body yields no record. -/
theorem curly_unterminated_silent (tok : String → Option String)
    (lines : List String) (i : Nat) (ms : List (String × String)) (md : Nat)
    (h : i < lines.length) (name : String)
    (htok : tok (lines.get ⟨i, h⟩) = some name)
    (hb : '{' ∈ (lines.get ⟨i, h⟩).data)
    (hnz : get_balance (lines.get ⟨i, h⟩) "\x7b\x7d" ≠ 0)
    (hun : ∀ k, i < k → k < lines.length →
      curlyRunBal (get_balance (lines.get ⟨i, h⟩) "\x7b\x7d") lines i k ≠ 0) :
    extract_curly_function i (get_balance (lines.get ⟨i, h⟩) "\x7b\x7d")
        (lines.get ⟨i, h⟩) lines = (lines.length - 1, "", "") ∧
      scanLoop tok lines i ms md = (ms, md) := by
  have hfc : findClose (get_balance (lines.get ⟨i, h⟩) "\x7b\x7d")
      (lines.drop (i + 1)) = none := by
    apply findClose_eq_none
    intro k hk
    rw [List.length_drop] at hk
    have hk2 := hun (i + 1 + k) (by omega) (by omega)
    have e : (i + 1 + k) - i = k + 1 := by omega
    unfold curlyRunBal at hk2
    rw [e] at hk2
    exact hk2
  have hext : extract_curly_function i (get_balance (lines.get ⟨i, h⟩) "\x7b\x7d")
      (lines.get ⟨i, h⟩) lines = (lines.length - 1, "", "") := by
    unfold extract_curly_function
    rw [hfc]
  refine ⟨hext, ?_⟩
  have hh := handle_curly_multi i (lines.get ⟨i, h⟩) lines hb hnz
  rw [hext] at hh
  rw [scanLoop_some tok lines i ms md h name htok, hh]
  have hstrip : strip ("" : String) = "" := rfl
  dsimp only
  rw [if_pos hstrip, Nat.add_zero]
  have e : lines.length - 1 + 1 = lines.length := by omega
  rw [e]
  exact scanLoop_base tok lines lines.length ms md (by omega)

/-- Witness for C3 at a concrete input: the opening brace is never closed,
so the scan of the two-line file produces no record and no miss. -/
theorem curly_unterminated_silent_witness :
    extract_curly_function 0 (get_balance "void f() \x7b\n" "\x7b\x7d")
        "void f() \x7b\n" ["void f() \x7b\n", " x\n"] = (1, "", "") ∧
      scanLoop (fun _ => some "f") ["void f() \x7b\n", " x\n"] 0 [] 0 =
        ([], 0) := by
  have h := curly_unterminated_silent (fun _ => some "f")
    ["void f() \x7b\n", " x\n"] 0 [] 0 (by decide) "f" rfl (by decide)
    (by decide)
    (by
      intro k h1 h2
      have hlen : (["void f() \x7b\n", " x\n"] : List String).length = 2 := rfl
      rw [hlen] at h2
      have hk : k = 1 := by omega
      subst hk
      decide)
  exact h

end Scrape
